import Mathlib

/-!
Shallow embedding of the data-cleaning and preprocessing utilities of the
`ml-emergency-admissions` repository
(`src/notebooks/utils/data_preprocessing_utils.py` and
`src/notebooks/utils/data_cleaning_utils.py`), with proofs of the
specification claims about them.

Tables are lists of records. Pandas nullable numeric cells are `Option ℚ`
(`NaN` is `none`); pandas timestamps are a `Timestamp` structure carrying
exactly the fields the code reads (`month`, `day`, `dayofweek`) plus the
chronological position `ord` used for ordering.
-/

namespace EmergencyAdmissions

/-! ### String ordering

Pandas `sort_values` on a string column sorts by code-point lexicographic
order; we embed that order directly on the character lists of the strings. -/

/-- Code-point comparison of two characters. -/
def charLtB (a b : Char) : Bool := decide (a < b)

/-- Lexicographic comparison of character lists (the order pandas uses on
string columns). -/
def lexLe : List Char → List Char → Bool
  | [], _ => true
  | _ :: _, [] => false
  | a :: as, b :: bs => if a = b then lexLe as bs else charLtB a b

/-- Lexicographic order on strings. -/
def strLe (a b : String) : Bool := lexLe a.toList b.toList

theorem lexLe_total : ∀ a b : List Char, lexLe a b = true ∨ lexLe b a = true
  | [], _ => Or.inl rfl
  | _ :: _, [] => Or.inr rfl
  | a :: as, b :: bs => by
    by_cases hab : a = b
    · subst hab
      simpa [lexLe] using lexLe_total as bs
    · rcases lt_trichotomy a b with h | h | h
      · exact Or.inl (by simp [lexLe, hab, charLtB, h])
      · exact absurd h hab
      · exact Or.inr (by simp [lexLe, Ne.symm hab, charLtB, h])

theorem lexLe_trans :
    ∀ (a b c : List Char),
      lexLe a b = true → lexLe b c = true → lexLe a c = true
  | [], _, _, _, _ => rfl
  | _ :: _, [], _, h, _ => by simp [lexLe] at h
  | _ :: _, _ :: _, [], _, h => by simp [lexLe] at h
  | a :: as, b :: bs, c :: cs, h1, h2 => by
    simp only [lexLe] at h1 h2 ⊢
    by_cases hab : a = b <;> by_cases hbc : b = c
    · rw [if_pos hab] at h1
      rw [if_pos hbc] at h2
      rw [if_pos (hab.trans hbc)]
      exact lexLe_trans as bs cs h1 h2
    · rw [if_neg hbc] at h2
      have hlt : b < c := by simpa [charLtB] using h2
      have hlt' : a < c := hab.symm ▸ hlt
      rw [if_neg (ne_of_lt hlt')]
      simpa [charLtB] using hlt'
    · rw [if_neg hab] at h1
      have hlt : a < b := by simpa [charLtB] using h1
      have hlt' : a < c := hbc ▸ hlt
      rw [if_neg (ne_of_lt hlt')]
      simpa [charLtB] using hlt'
    · rw [if_neg hab] at h1
      rw [if_neg hbc] at h2
      have hlt : a < c :=
        lt_trans (by simpa [charLtB] using h1) (by simpa [charLtB] using h2)
      rw [if_neg (ne_of_lt hlt)]
      simpa [charLtB] using hlt

theorem lexLe_antisymm :
    ∀ (a b : List Char), lexLe a b = true → lexLe b a = true → a = b
  | [], [], _, _ => rfl
  | [], _ :: _, _, h2 => by simp [lexLe] at h2
  | _ :: _, [], h1, _ => by simp [lexLe] at h1
  | a :: as, b :: bs, h1, h2 => by
    by_cases hab : a = b
    · subst hab
      simp only [lexLe, if_pos rfl] at h1 h2
      rw [lexLe_antisymm as bs h1 h2]
    · have l1 : a < b := by simpa [lexLe, hab, charLtB] using h1
      have l2 : b < a := by simpa [lexLe, Ne.symm hab, charLtB] using h2
      exact absurd l1 (lt_asymm l2)

theorem strLe_total (a b : String) : strLe a b = true ∨ strLe b a = true :=
  lexLe_total a.toList b.toList

theorem strLe_trans {a b c : String}
    (h1 : strLe a b = true) (h2 : strLe b c = true) : strLe a c = true :=
  lexLe_trans a.toList b.toList c.toList h1 h2

theorem strLe_antisymm {a b : String}
    (h1 : strLe a b = true) (h2 : strLe b a = true) : a = b :=
  String.toList_inj.mp (lexLe_antisymm a.toList b.toList h1 h2)

/-! ### Data model -/

/-- A pandas timestamp, reduced to the fields the code reads: `month`, `day`
(for the season rule), `dayofweek` (0 = Monday), and the chronological
position `ord` used for sorting and equality of timestamps. -/
structure Timestamp where
  ord : Nat
  month : Nat
  day : Nat
  dayofweek : Nat
deriving DecidableEq, Repr

/-- One table row in the common schema `{hospital, timestamp, admissions}`;
`admissions` is nullable (`none` models NaN). -/
structure Row where
  hospital : String
  time : Timestamp
  admissions : Option ℚ
deriving DecidableEq, Repr

/-- Sum of the non-null entries of a nullable column: pandas `sum`
(`skipna` semantics, the sum of an all-null group being `0`). -/
def qsum (l : List (Option ℚ)) : ℚ := (l.filterMap id).sum

/-- Value of a nullable cell with nulls counting as `0`. -/
def optVal (o : Option ℚ) : ℚ := o.getD 0

theorem qsum_cons (x : Option ℚ) (l : List (Option ℚ)) :
    qsum (x :: l) = optVal x + qsum l := by
  cases x <;> simp [qsum, optVal]

/-! ### Aggregator: `group_data`
(`data_preprocessing_utils.py`, lines 73–93) -/

/-- Line 84: `time_col = 'datetime' if 'datetime' in df.columns else 'date'`. -/
def time_col (cols : List String) : String :=
  if "datetime" ∈ cols then "datetime" else "date"

/-- Grouping key of a row: the `(hospital, time_col)` pair. -/
def rowKey (r : Row) : String × Timestamp := (r.hospital, r.time)

/-- The `sort_values(by=['hospital', time_col], ascending=[True, True])`
order: by hospital name, ties broken by chronological position. -/
def keyLeB (a b : Row) : Bool :=
  if a.hospital = b.hospital then decide (a.time.ord ≤ b.time.ord)
  else strLe a.hospital b.hospital

/-- The sort order of `group_data`, as a decidable relation. -/
def RowLe (a b : Row) : Prop := keyLeB a b = true

instance : DecidableRel RowLe := fun a b =>
  inferInstanceAs (Decidable (keyLeB a b = true))

instance : IsTotal Row RowLe where
  total a b := by
    unfold RowLe keyLeB
    by_cases h : a.hospital = b.hospital
    · simp [h]
      omega
    · rcases strLe_total a.hospital b.hospital with h' | h'
      · exact Or.inl (by simp [h, h'])
      · exact Or.inr (by simp [Ne.symm h, h'])

instance : IsTrans Row RowLe where
  trans a b c h1 h2 := by
    unfold RowLe keyLeB at h1 h2 ⊢
    by_cases hab : a.hospital = b.hospital <;>
      by_cases hbc : b.hospital = c.hospital
    · rw [if_pos hab] at h1
      rw [if_pos hbc] at h2
      rw [if_pos (hab.trans hbc)]
      exact decide_eq_true (le_trans (of_decide_eq_true h1) (of_decide_eq_true h2))
    · rw [if_neg hbc] at h2
      rw [if_neg (hab.trans_ne hbc)]
      rw [hab]
      exact h2
    · rw [if_neg hab] at h1
      rw [if_neg fun h => hab (h.trans hbc.symm)]
      rw [← hbc]
      exact h1
    · rw [if_neg hab] at h1
      rw [if_neg hbc] at h2
      by_cases hac : a.hospital = c.hospital
      · have h2' : strLe b.hospital a.hospital = true := by rw [hac]; exact h2
        exact absurd (strLe_antisymm h1 h2') hab
      · rw [if_neg hac]
        exact strLe_trans h1 h2

/-- The distinct `(hospital, time_col)` keys of a table, in first-occurrence
order (the groups `groupby` forms). -/
def groupKeys (df : List Row) : List (String × Timestamp) :=
  (df.map rowKey).dedup

/-- The aggregated output row of one group: its key together with
`agg({'admissions': 'sum'})` over the group's rows. -/
def mkGroupRow (df : List Row) (k : String × Timestamp) : Row :=
  { hospital := k.1, time := k.2,
    admissions :=
      some (qsum ((df.filter fun r => rowKey r = k).map (·.admissions))) }

/-- `group_data` (lines 73–93): group by `(hospital, time_col)` summing
`admissions`, then sort the result by `(hospital, time_col)` ascending
(`sort_values(by=['hospital', time_col], ascending=[True, True])`). -/
def group_data (df : List Row) : List Row :=
  List.insertionSort RowLe ((groupKeys df).map (mkGroupRow df))

theorem rowKey_mkGroupRow (df : List Row) (k : String × Timestamp) :
    rowKey (mkGroupRow df k) = k := rfl

theorem map_rowKey_mkGroupRow (df : List Row) :
    ((groupKeys df).map (mkGroupRow df)).map rowKey = groupKeys df := by
  rw [List.map_map]
  have h : rowKey ∘ mkGroupRow df = id := funext fun k => rfl
  rw [h, List.map_id]

/-- Sum over a list of the values of a function that is `v` at one point `a`
and `0` elsewhere, when `a` is not in the list. -/
theorem sum_map_ite_zero {α : Type} [DecidableEq α] (l : List α) (a : α)
    (v : ℚ) (ha : a ∉ l) :
    (l.map fun k => if a = k then v else 0).sum = 0 := by
  induction l with
  | nil => simp
  | cons b bs ih =>
    simp only [List.mem_cons, not_or] at ha
    simp [ha.1, ih ha.2]

theorem sum_map_ite {α : Type} [DecidableEq α] (l : List α) (a : α) (v : ℚ)
    (hnd : l.Nodup) (ha : a ∈ l) :
    (l.map fun k => if a = k then v else 0).sum = v := by
  induction l with
  | nil => exact absurd ha (List.not_mem_nil a)
  | cons b bs ih =>
    rw [List.nodup_cons] at hnd
    rcases List.mem_cons.mp ha with h | h
    · subst h
      simp [sum_map_ite_zero bs a v hnd.1]
    · have hab : a ≠ b := fun hh => hnd.1 (hh ▸ h)
      simp [hab, ih hnd.2 h]

theorem sum_map_addQ {α : Type} (l : List α) (f g : α → ℚ) :
    (l.map fun x => f x + g x).sum = (l.map f).sum + (l.map g).sum := by
  induction l with
  | nil => simp
  | cons x xs ih =>
    simp only [List.map_cons, List.sum_cons, ih]
    ring

/-- Partition of the column total by the distinct group keys: the grouped
per-key sums add up to the global sum. -/
theorem sum_over_groups (df : List Row) (keys : List (String × Timestamp))
    (hnd : keys.Nodup) (hcov : ∀ r ∈ df, rowKey r ∈ keys) :
    (keys.map fun k =>
        qsum ((df.filter fun r => rowKey r = k).map (·.admissions))).sum
      = qsum (df.map (·.admissions)) := by
  induction df with
  | nil => simp [qsum]
  | cons r df ih =>
    have hcov' : ∀ x ∈ df, rowKey x ∈ keys := fun x hx =>
      hcov x (List.mem_cons_of_mem _ hx)
    have hr : rowKey r ∈ keys := hcov r (List.mem_cons_self _ _)
    have hstep : (keys.map fun k =>
        qsum (((r :: df).filter fun x => rowKey x = k).map (·.admissions))).sum
        = (keys.map fun k =>
            (if rowKey r = k then optVal r.admissions else 0)
              + qsum ((df.filter fun x => rowKey x = k).map (·.admissions))).sum := by
      congr 1
      apply List.map_congr_left
      intro k _
      by_cases h : rowKey r = k
      · simp [List.filter_cons, h, qsum_cons]
      · simp [List.filter_cons, h]
    rw [hstep, sum_map_addQ, sum_map_ite keys (rowKey r) _ hnd hr, ih hcov',
      List.map_cons, qsum_cons]

theorem qsum_map_some {α : Type} (l : List α) (f : α → ℚ) :
    qsum (l.map fun x => some (f x)) = (l.map f).sum := by
  induction l with
  | nil => rfl
  | cons x xs ih => simp [qsum, List.filterMap_cons] at ih ⊢; rw [ih]

/-- C1: for every input table, `group_data` returns a table with exactly one
row per distinct `(hospital, time)` pair of the input, each output row's
admissions equal to the sum of the admissions of that pair's input rows, the
total output admissions equal to the total input admissions, the rows sorted
ascending by `(hospital, time)`; the grouping time column is `'datetime'`
when that column is present and `'date'` otherwise. -/
theorem C1_group_data (df : List Row) (i : Nat)
    (hi : i < (group_data df).length) (k : String × Timestamp)
    (cols : List String) :
    ((group_data df).map rowKey).Nodup ∧
    (k ∈ (group_data df).map rowKey ↔ k ∈ df.map rowKey) ∧
    ((group_data df).get ⟨i, hi⟩).admissions =
      some (qsum ((df.filter fun x =>
        rowKey x = rowKey ((group_data df).get ⟨i, hi⟩)).map (·.admissions))) ∧
    qsum ((group_data df).map (·.admissions)) = qsum (df.map (·.admissions)) ∧
    List.Sorted RowLe (group_data df) ∧
    ("datetime" ∈ cols → time_col cols = "datetime") ∧
    ("datetime" ∉ cols → time_col cols = "date") := by
  have hperm : List.Perm (group_data df) ((groupKeys df).map (mkGroupRow df)) :=
    List.perm_insertionSort _ _
  have hkeyperm : List.Perm ((group_data df).map rowKey) (groupKeys df) := by
    have h := hperm.map rowKey
    rwa [map_rowKey_mkGroupRow] at h
  refine ⟨?_, ?_, ?_, ?_, ?_, ?_, ?_⟩
  · exact hkeyperm.nodup_iff.mpr (List.nodup_dedup _)
  · rw [hkeyperm.mem_iff]
    exact List.mem_dedup
  · have hmem : (group_data df).get ⟨i, hi⟩ ∈ group_data df := List.get_mem _ _ _
    rcases List.mem_map.mp (hperm.mem_iff.mp hmem) with ⟨kk, _, hk⟩
    rw [← hk]
    simp only [rowKey_mkGroupRow]
    rfl
  · calc qsum ((group_data df).map (·.admissions))
        = qsum (((groupKeys df).map (mkGroupRow df)).map (·.admissions)) := by
          unfold qsum
          exact ((hperm.map _).filterMap id).sum_eq
      _ = qsum ((groupKeys df).map fun kk =>
            some (qsum ((df.filter fun r => rowKey r = kk).map (·.admissions)))) := by
          rw [List.map_map]
          rfl
      _ = ((groupKeys df).map fun kk =>
            qsum ((df.filter fun r => rowKey r = kk).map (·.admissions))).sum :=
          qsum_map_some _ _
      _ = qsum (df.map (·.admissions)) :=
          sum_over_groups df (groupKeys df) (List.nodup_dedup _)
            (fun r hr => List.mem_dedup.mpr (List.mem_map_of_mem rowKey hr))
  · exact List.sorted_insertionSort _ _
  · intro h
    unfold time_col
    rw [if_pos h]
  · intro h
    unfold time_col
    rw [if_neg h]

/-- A timestamp used in concrete tables. -/
def tsA : Timestamp := ⟨1, 1, 1, 0⟩

/-- A second timestamp used in concrete tables. -/
def tsB : Timestamp := ⟨2, 1, 2, 1⟩

/-- A third timestamp used in concrete tables. -/
def tsC : Timestamp := ⟨3, 1, 3, 2⟩

/-- A fourth timestamp used in concrete tables. -/
def tsD : Timestamp := ⟨4, 1, 4, 3⟩

/-- A fifth timestamp used in concrete tables. -/
def tsE : Timestamp := ⟨5, 1, 5, 4⟩

/-- A concrete three-row table with a duplicated `(hospital, time)` key. -/
def dfC1 : List Row :=
  [⟨"b", tsA, some 2⟩, ⟨"a", tsB, some 3⟩, ⟨"b", tsA, some 4⟩]

theorem C1_group_data_witness :
    0 < (group_data dfC1).length ∧
    qsum ((group_data dfC1).map (·.admissions)) = qsum (dfC1.map (·.admissions)) :=
  ⟨by decide, (C1_group_data dfC1 0 (by decide) ("a", tsB) ["date"]).2.2.2.1⟩

/-! ### Cleaner, pass 1: `fill_missing_values`
(`data_preprocessing_utils.py`, lines 113–125) -/

/-- Latest recorded admissions value per hospital: association-list lookup,
most recent entry first. -/
def lookupHosp (h : String) : List (String × ℚ) → Option ℚ
  | [] => none
  | (h', v) :: rest => if h' = h then some v else lookupHosp h rest

/-- One left-to-right pass of
`df.groupby('hospital')['admissions'].transform(lambda x: x.ffill())`:
a row with a non-null admissions keeps it and records it as its hospital's
latest value; a null row is filled with its hospital's latest recorded value
(still null when the hospital has no earlier non-null value). -/
def ffillAux (env : List (String × ℚ)) : List Row → List Row
  | [] => []
  | r :: rs =>
    match r.admissions with
    | some v => r :: ffillAux ((r.hospital, v) :: env) rs
    | none =>
      { r with admissions := lookupHosp r.hospital env } :: ffillAux env rs

/-- `fill_missing_values` (lines 113–125). -/
def fill_missing_values (df : List Row) : List Row := ffillAux [] df

/-- Modelled from the spec's words, for comparison with the implementation:
the most recent non-null admissions value strictly earlier than position `i`
in hospital `h`'s series — restrict the first `i` rows to hospital `h`, scan
backwards, and take the first non-null admissions value found. -/
def lastValidBefore (df : List Row) (i : Nat) (h : String) : Option ℚ :=
  ((df.take i).reverse.filter fun r => r.hospital = h).findSome? (·.admissions)

/-- The `(hospital, value)` entries recorded by the forward-fill pass over
`l`, most recent first. -/
def pushes (l : List Row) : List (String × ℚ) :=
  l.reverse.filterMap fun r => r.admissions.map fun v => (r.hospital, v)

theorem pushes_nil : pushes [] = [] := rfl

theorem pushes_cons (r : Row) (l : List Row) :
    pushes (r :: l) = pushes l ++ pushes [r] := by
  simp [pushes, List.filterMap_append]

theorem pushes_single_some {r : Row} {v : ℚ} (h : r.admissions = some v) :
    pushes [r] = [(r.hospital, v)] := by
  simp [pushes, h]

theorem pushes_single_none {r : Row} (h : r.admissions = none) :
    pushes [r] = [] := by
  simp [pushes, h]

theorem lookupHosp_filterMap (h : String) :
    ∀ m : List Row,
      lookupHosp h (m.filterMap fun r => r.admissions.map fun v => (r.hospital, v))
        = (m.filter fun r => r.hospital = h).findSome? (·.admissions)
  | [] => rfl
  | r :: rs => by
    cases hadm : r.admissions with
    | some v =>
      by_cases hh : r.hospital = h
      · simp [List.filterMap_cons, hadm, List.filter_cons, hh, lookupHosp,
          List.findSome?_cons]
      · simp [List.filterMap_cons, hadm, List.filter_cons, hh, lookupHosp,
          lookupHosp_filterMap h rs]
    | none =>
      by_cases hh : r.hospital = h
      · simp [List.filterMap_cons, hadm, List.filter_cons, hh,
          List.findSome?_cons, lookupHosp_filterMap h rs]
      · simp [List.filterMap_cons, hadm, List.filter_cons, hh,
          lookupHosp_filterMap h rs]

theorem lookupHosp_pushes (h : String) (l : List Row) :
    lookupHosp h (pushes l)
      = (l.reverse.filter fun r => r.hospital = h).findSome? (·.admissions) :=
  lookupHosp_filterMap h l.reverse

theorem ffillAux_getElem? :
    ∀ (df : List Row) (env : List (String × ℚ)) (i : Nat),
      (ffillAux env df)[i]? = (df[i]?).map fun r =>
        match r.admissions with
        | some _ => r
        | none =>
          { r with admissions :=
              lookupHosp r.hospital (pushes (df.take i) ++ env) }
  | [], env, i => by simp [ffillAux]
  | r :: rs, env, i => by
    cases hadm : r.admissions with
    | some v =>
      have hunf : ffillAux env (r :: rs) = r :: ffillAux ((r.hospital, v) :: env) rs := by
        simp [ffillAux, hadm]
      cases i with
      | zero => simp [hunf, hadm]
      | succ n =>
        rw [hunf, List.getElem?_cons_succ, List.getElem?_cons_succ,
          ffillAux_getElem? rs ((r.hospital, v) :: env) n]
        congr 1
        funext x
        rw [List.take_succ_cons, pushes_cons, pushes_single_some hadm,
          List.append_assoc]
        rfl
    | none =>
      have hunf : ffillAux env (r :: rs)
          = { r with admissions := lookupHosp r.hospital env } :: ffillAux env rs := by
        simp [ffillAux, hadm]
      cases i with
      | zero => simp [hunf, hadm, pushes_nil]
      | succ n =>
        rw [hunf, List.getElem?_cons_succ, List.getElem?_cons_succ,
          ffillAux_getElem? rs env n]
        congr 1
        funext x
        rw [List.take_succ_cons, pushes_cons, pushes_single_none hadm,
          List.append_nil]

theorem ffillAux_length :
    ∀ (df : List Row) (env : List (String × ℚ)),
      (ffillAux env df).length = df.length
  | [], _ => rfl
  | r :: rs, env => by
    cases hadm : r.admissions with
    | some v => simp [ffillAux, hadm, ffillAux_length rs]
    | none => simp [ffillAux, hadm, ffillAux_length rs]

theorem fill_missing_values_length (df : List Row) :
    (fill_missing_values df).length = df.length :=
  ffillAux_length df []

/-- A single-hospital table whose admissions column is `[10, null, null, 20]`. -/
def dfFillA : List Row :=
  [⟨"H", tsA, some 10⟩, ⟨"H", tsB, none⟩, ⟨"H", tsC, none⟩, ⟨"H", tsD, some 20⟩]

/-- A single-hospital table whose admissions column is `[null, 5]`. -/
def dfFillB : List Row :=
  [⟨"H", tsA, none⟩, ⟨"H", tsB, some 5⟩]

/-- C4: the forward-fill keeps hospital and time of every row, keeps non-null
admissions unchanged, and replaces each null admissions by the most recent
non-null admissions value earlier in the same hospital's series (never
looking at other hospitals), leaving it null when no such value exists; in
particular `[10, null, null, 20]` becomes `[10, 10, 10, 20]` and `[null, 5]`
stays `[null, 5]`. -/
theorem C4_fill_missing_values (df : List Row) (i : Nat) (hi : i < df.length) :
    (fill_missing_values df).length = df.length ∧
    (∃ r r', df[i]? = some r ∧ (fill_missing_values df)[i]? = some r' ∧
      r'.hospital = r.hospital ∧ r'.time = r.time ∧
      (r.admissions.isSome = true → r'.admissions = r.admissions) ∧
      (r.admissions = none →
        r'.admissions = lastValidBefore df i r.hospital)) ∧
    fill_missing_values dfFillA =
      [⟨"H", tsA, some 10⟩, ⟨"H", tsB, some 10⟩,
       ⟨"H", tsC, some 10⟩, ⟨"H", tsD, some 20⟩] ∧
    fill_missing_values dfFillB = dfFillB := by
  refine ⟨fill_missing_values_length df, ?_, by decide, by decide⟩
  obtain ⟨r, hr⟩ : ∃ r, df[i]? = some r :=
    ⟨df.get ⟨i, hi⟩, List.getElem?_eq_getElem hi⟩
  have hout : (fill_missing_values df)[i]? = some (match r.admissions with
      | some _ => r
      | none =>
        { r with admissions := lookupHosp r.hospital (pushes (df.take i) ++ []) }) := by
    unfold fill_missing_values
    rw [ffillAux_getElem? df [] i, hr]
    rfl
  cases hadm : r.admissions with
  | some v =>
    refine ⟨r, r, hr, ?_, rfl, rfl, ?_, ?_⟩
    · rw [hout]
      simp [hadm]
    · intro _
      rfl
    · intro h
      rw [h] at hadm
      cases hadm
  | none =>
    refine ⟨r, { r with admissions := lastValidBefore df i r.hospital },
      hr, ?_, rfl, rfl, ?_, ?_⟩
    · rw [hout]
      simp only [hadm]
      rw [List.append_nil, lookupHosp_pushes]
      rfl
    · intro h
      rw [hadm] at h
      exact absurd h (by simp)
    · intro _
      rfl

theorem C4_fill_missing_values_witness :
    1 < dfFillA.length ∧
    ((fill_missing_values dfFillA).length = dfFillA.length ∧
    (∃ r r', dfFillA[1]? = some r ∧ (fill_missing_values dfFillA)[1]? = some r' ∧
      r'.hospital = r.hospital ∧ r'.time = r.time ∧
      (r.admissions.isSome = true → r'.admissions = r.admissions) ∧
      (r.admissions = none →
        r'.admissions = lastValidBefore dfFillA 1 r.hospital)) ∧
    fill_missing_values dfFillA =
      [⟨"H", tsA, some 10⟩, ⟨"H", tsB, some 10⟩,
       ⟨"H", tsC, some 10⟩, ⟨"H", tsD, some 20⟩] ∧
    fill_missing_values dfFillB = dfFillB) :=
  ⟨by decide, C4_fill_missing_values dfFillA 1 (by decide)⟩

/-! ### Cleaner, pass 2: `remove_outliers`
(`data_preprocessing_utils.py`, lines 127–147) -/

/-- The non-null values of the admissions column: pandas `mean`/`std`
skip NaN. -/
def colVals (df : List Row) : List ℚ := df.filterMap (·.admissions)

/-- `df[column].mean()` as a total ℚ expression (meaningful when the column
has at least one non-null value). -/
def colMean (df : List Row) : ℚ := (colVals df).sum / (colVals df).length

/-- `df[column].std() ** 2`: sample variance with `ddof = 1`, pandas'
default (meaningful when at least two non-null values exist). The
embedding carries the variance σ² instead of the irrational σ; the band
test compares squares, which is equivalent. -/
def colVar (df : List Row) : ℚ :=
  ((colVals df).map fun x => (x - colMean df) ^ 2).sum
    / (((colVals df).length : ℚ) - 1)

/-- `df[column].mean()`: NaN (`none`) when no non-null value exists. -/
def colMean? (df : List Row) : Option ℚ :=
  if (colVals df).length = 0 then none else some (colMean df)

/-- `df[column].std() ** 2`: NaN (`none`) when fewer than two non-null
values exist (`ddof = 1`). -/
def colVar? (df : List Row) : Option ℚ :=
  if (colVals df).length < 2 then none else some (colVar df)

/-- `df[column].between(avg - 2*std, avg + 2*std, inclusive='both')` on one
nullable cell: false for a null value and false whenever mean or std is NaN
(comparisons against NaN are false in pandas); for a value `v` it is
`avg - 2*std ≤ v ≤ avg + 2*std`, i.e. `|v − μ| ≤ 2σ`, tested in ℚ as
`(v − μ)² ≤ 4σ²`. -/
def inBand (df : List Row) (a : Option ℚ) : Bool :=
  match a with
  | none => false
  | some v =>
    match colMean? df, colVar? df with
    | some μ, some s2 => decide ((v - μ) ^ 2 ≤ 4 * s2)
    | _, _ => false

/-- `remove_outliers` (lines 127–147), applied to the `admissions` column:
keep exactly the rows whose value lies in the band. The mean and the
standard deviation are computed once, over the whole column. -/
def remove_outliers (df : List Row) : List Row :=
  df.filter fun r => inBand df r.admissions

/-- `process_data` (lines 95–111): forward-fill then outlier removal
(`reset_index` does not change the row sequence). -/
def process_data (df : List Row) : List Row :=
  remove_outliers (fill_missing_values df)

theorem colVar_nonneg (df : List Row) (h2 : 2 ≤ (colVals df).length) :
    0 ≤ colVar df := by
  unfold colVar
  apply div_nonneg
  · apply List.sum_nonneg
    intro x hx
    rcases List.mem_map.mp hx with ⟨y, _, hy⟩
    rw [← hy]
    positivity
  · have : (2 : ℚ) ≤ ((colVals df).length : ℚ) := by exact_mod_cast h2
    linarith

/-- C2: with at least two non-null values (so that the sample std is
defined), `remove_outliers` keeps exactly the rows of the input whose
admissions value lies in the closed interval `[μ − 2σ, μ + 2σ]`, where μ
and σ = √σ² are computed once over the whole column, not per hospital. -/
theorem C2_remove_outliers (df : List Row) (h2 : 2 ≤ (colVals df).length)
    (r : Row) :
    r ∈ remove_outliers df ↔
      r ∈ df ∧ ∃ v : ℚ, r.admissions = some v ∧
        ((colMean df : ℝ) - 2 * Real.sqrt (colVar df) ≤ (v : ℝ) ∧
          (v : ℝ) ≤ (colMean df : ℝ) + 2 * Real.sqrt (colVar df)) := by
  have hmean : colMean? df = some (colMean df) := by
    unfold colMean?
    rw [if_neg (by omega)]
  have hvar : colVar? df = some (colVar df) := by
    unfold colVar?
    rw [if_neg (by omega)]
  have hs2 : (0 : ℝ) ≤ (colVar df : ℝ) := by
    exact_mod_cast colVar_nonneg df h2
  have hkey : ∀ v : ℚ, ((v - colMean df) ^ 2 ≤ 4 * colVar df) ↔
      ((colMean df : ℝ) - 2 * Real.sqrt (colVar df) ≤ (v : ℝ) ∧
        (v : ℝ) ≤ (colMean df : ℝ) + 2 * Real.sqrt (colVar df)) := by
    intro v
    have hcast : ((v - colMean df) ^ 2 ≤ 4 * colVar df) ↔
        (((v : ℝ) - (colMean df : ℝ)) ^ 2 ≤ 4 * (colVar df : ℝ)) := by
      constructor
      · intro h
        exact_mod_cast h
      · intro h
        exact_mod_cast h
    rw [hcast]
    have habs : (((v : ℝ) - (colMean df : ℝ)) ^ 2 ≤ 4 * (colVar df : ℝ)) ↔
        |(v : ℝ) - (colMean df : ℝ)| ≤ 2 * Real.sqrt (colVar df) := by
      constructor
      · intro h
        calc |(v : ℝ) - (colMean df : ℝ)|
            = Real.sqrt (((v : ℝ) - (colMean df : ℝ)) ^ 2) :=
              (Real.sqrt_sq_eq_abs _).symm
          _ ≤ Real.sqrt (4 * (colVar df : ℝ)) := Real.sqrt_le_sqrt h
          _ = 2 * Real.sqrt (colVar df) := by
              rw [show (4 : ℝ) * (colVar df : ℝ) = 2 ^ 2 * (colVar df : ℝ) by ring,
                Real.sqrt_mul (by positivity), Real.sqrt_sq (by norm_num)]
      · intro h
        have hp := pow_le_pow_left₀ (abs_nonneg ((v : ℝ) - (colMean df : ℝ))) h 2
        rw [sq_abs] at hp
        calc ((v : ℝ) - (colMean df : ℝ)) ^ 2
            ≤ (2 * Real.sqrt (colVar df)) ^ 2 := hp
          _ = 4 * (colVar df : ℝ) := by
              rw [mul_pow, Real.sq_sqrt hs2]
              ring
    rw [habs, abs_le]
    constructor
    · rintro ⟨hl, hr⟩
      constructor <;> linarith
    · rintro ⟨hl, hr⟩
      constructor <;> linarith
  unfold remove_outliers
  rw [List.mem_filter]
  constructor
  · rintro ⟨hmem, hband⟩
    refine ⟨hmem, ?_⟩
    cases hadm : r.admissions with
    | none =>
      rw [hadm] at hband
      simp [inBand] at hband
    | some v =>
      rw [hadm] at hband
      unfold inBand at hband
      rw [hmean, hvar] at hband
      exact ⟨v, rfl, (hkey v).mp (of_decide_eq_true hband)⟩
  · rintro ⟨hmem, v, hadm, hband⟩
    refine ⟨hmem, ?_⟩
    rw [hadm]
    unfold inBand
    rw [hmean, hvar]
    exact decide_eq_true ((hkey v).mpr hband)

/-- The admissions column `[1, 2, 3, 4, 100]` from the spec's outlier test,
as a single-hospital table. -/
def dfC3 : List Row :=
  [⟨"H", tsA, some 1⟩, ⟨"H", tsB, some 2⟩, ⟨"H", tsC, some 3⟩,
   ⟨"H", tsD, some 4⟩, ⟨"H", tsE, some 100⟩]

theorem colVals_dfC3 : colVals dfC3 = [1, 2, 3, 4, 100] := rfl

theorem colMean_dfC3 : colMean dfC3 = 22 := by
  rw [colMean, colVals_dfC3]
  norm_num

theorem colVar_dfC3 : colVar dfC3 = 7610 / 4 := by
  rw [colVar, colVals_dfC3, colMean_dfC3]
  norm_num

theorem colMeanOpt_dfC3 : colMean? dfC3 = some 22 := by
  rw [colMean?, colVals_dfC3, colMean_dfC3]
  norm_num

theorem colVarOpt_dfC3 : colVar? dfC3 = some (7610 / 4) := by
  rw [colVar?, colVals_dfC3, colVar_dfC3]
  norm_num

/-- C3 counterexample: on the admissions column `[1, 2, 3, 4, 100]` the row
valued `100` is retained by `remove_outliers`, contradicting the claim that
it is dropped: μ = 22 and σ² = 7610/4, so (100 − 22)² = 6084 ≤ 4σ² = 7610,
i.e. 100 lies inside `[μ − 2σ, μ + 2σ]`. -/
theorem C3_counterexample :
    (⟨"H", tsE, some 100⟩ : Row) ∈ remove_outliers dfC3 := by
  unfold remove_outliers
  rw [List.mem_filter]
  constructor
  · simp [dfC3]
  · show inBand dfC3 (some 100) = true
    unfold inBand
    rw [colMeanOpt_dfC3, colVarOpt_dfC3]
    norm_num

/-- C3, amended: on `[1, 2, 3, 4, 100]` every row lies inside
`[μ − 2σ, μ + 2σ]`, so `remove_outliers` retains all five rows. -/
theorem C3_amended : remove_outliers dfC3 = dfC3 := by
  unfold remove_outliers
  apply List.filter_eq_self.mpr
  intro r hr
  have hb : ∀ v : ℚ, (v - 22) ^ 2 ≤ 4 * (7610 / 4) →
      inBand dfC3 (some v) = true := by
    intro v hv
    unfold inBand
    rw [colMeanOpt_dfC3, colVarOpt_dfC3]
    exact decide_eq_true hv
  simp only [dfC3, List.mem_cons, List.not_mem_nil, or_false] at hr
  rcases hr with h | h | h | h | h <;> subst h
  · exact hb 1 (by norm_num)
  · exact hb 2 (by norm_num)
  · exact hb 3 (by norm_num)
  · exact hb 4 (by norm_num)
  · exact hb 100 (by norm_num)

theorem C2_remove_outliers_witness :
    2 ≤ (colVals dfC3).length ∧
    ((⟨"H", tsE, some 100⟩ : Row) ∈ remove_outliers dfC3 ↔
      (⟨"H", tsE, some 100⟩ : Row) ∈ dfC3 ∧
        ∃ v : ℚ, (⟨"H", tsE, some 100⟩ : Row).admissions = some v ∧
          ((colMean dfC3 : ℝ) - 2 * Real.sqrt (colVar dfC3) ≤ (v : ℝ) ∧
            (v : ℝ) ≤ (colMean dfC3 : ℝ) + 2 * Real.sqrt (colVar dfC3))) :=
  ⟨by decide, C2_remove_outliers dfC3 (by decide) ⟨"H", tsE, some 100⟩⟩

/-- C10: `remove_outliers` drops every row with a null admissions value
(a null is never inside the band), and consequently `process_data` returns
a table with no null admissions. -/
theorem C10_no_null_admissions (df : List Row) :
    ((remove_outliers df).all fun r => r.admissions.isSome) = true ∧
    ((process_data df).all fun r => r.admissions.isSome) = true := by
  have key : ∀ (d : List Row), ((remove_outliers d).all
      fun r => r.admissions.isSome) = true := by
    intro d
    rw [List.all_eq_true]
    intro r hr
    have hband := (List.mem_filter.mp hr).2
    cases hadm : r.admissions with
    | none =>
      rw [hadm] at hband
      simp [inBand] at hband
    | some v => simp [hadm]
  exact ⟨key df, key (fill_missing_values df)⟩

/-! ### Feature extender: `aggregate_data`
(`data_preprocessing_utils.py`, lines 149–201) -/

/-- `get_season` (lines 172–181): Northern-Hemisphere season from the
comparison key `month * 100 + day`. -/
def get_season (t : Timestamp) : Nat :=
  let md := t.month * 100 + t.day
  if 321 ≤ md ∧ md ≤ 620 then 1
  else if 621 ≤ md ∧ md ≤ 922 then 2
  else if 923 ≤ md ∧ md ≤ 1220 then 3
  else 4

/-- A row of the feature-extended table: the input columns plus
`day_of_week`, `is_weekend`, `season`, the lags and the rolling means. -/
structure FeatRow where
  hospital : String
  time : Timestamp
  admissions : Option ℚ
  day_of_week : Nat
  is_weekend : Nat
  season : Nat
  lag_7 : Option ℚ
  lag_14 : Option ℚ
  rolling_7 : Option ℚ
  rolling_14 : Option ℚ
deriving DecidableEq, Repr

/-- `series.shift(k)` read at position `i`: the value `k` positions earlier,
NaN when no such position exists. -/
def shift (k : Nat) (vals : List (Option ℚ)) (i : Nat) : Option ℚ :=
  if k ≤ i then vals.getD (i - k) none else none

/-- `series.shift(1).rolling(window=k).mean()` read at position `i`: the
mean of the `k` values at positions `i−k … i−1`, NaN while fewer than `k`
such positions exist (`min_periods` defaults to the window size) or when
any of them is NaN. -/
def rollingMean (k : Nat) (vals : List (Option ℚ)) (i : Nat) : Option ℚ :=
  if k ≤ i then
    if ((vals.drop (i - k)).take k).all (·.isSome) then
      some ((((vals.drop (i - k)).take k).filterMap id).sum / k)
    else none
  else none

/-- One output row of `add_lags` (lines 185–193): the input row at position
`i` of its hospital's time-sorted series, extended with the calendar
features of lines 166–182 and the lag/rolling features of lines 187–192.
The calendar columns are assigned before the groupby in the source; they
are row-local, so they are computed here in one place. -/
def featRow (vals : List (Option ℚ)) (i : Nat) (r : Row) : FeatRow :=
  { hospital := r.hospital
    time := r.time
    admissions := r.admissions
    day_of_week := r.time.dayofweek
    is_weekend := if r.time.dayofweek = 5 ∨ r.time.dayofweek = 6 then 1 else 0
    season := get_season r.time
    lag_7 := shift 7 vals i
    lag_14 := shift 14 vals i
    rolling_7 := rollingMean 7 vals i
    rolling_14 := rollingMean 14 vals i }

/-- The `group.sort_values(time_col)` order within one hospital group. -/
def TimeLe (a b : Row) : Prop := a.time.ord ≤ b.time.ord

instance : DecidableRel TimeLe := fun a b =>
  inferInstanceAs (Decidable (a.time.ord ≤ b.time.ord))

instance : IsTotal Row TimeLe where
  total a b := Nat.le_total a.time.ord b.time.ord

instance : IsTrans Row TimeLe where
  trans _ _ _ h1 h2 := Nat.le_trans h1 h2

/-- `group.sort_values(time_col)` (line 186). -/
def sortByTime (rows : List Row) : List Row := List.insertionSort TimeLe rows

/-- Position-indexed traversal producing the `featRow` of each row. -/
def addLagsAux (vals : List (Option ℚ)) : Nat → List Row → List FeatRow
  | _, [] => []
  | i, r :: rs => featRow vals i r :: addLagsAux vals (i + 1) rs

/-- `add_lags` (lines 185–193): sort the hospital's rows by time, then read
each lag/rolling feature off the sorted admissions series. -/
def add_lags (group : List Row) : List FeatRow :=
  addLagsAux ((sortByTime group).map (·.admissions)) 0 (sortByTime group)

/-- The distinct hospitals in the order `groupby('hospital')` enumerates the
groups: ascending by name. -/
def StrLeP (a b : String) : Prop := strLe a b = true

instance : DecidableRel StrLeP := fun a b =>
  inferInstanceAs (Decidable (strLe a b = true))

instance : IsTotal String StrLeP where
  total a b := strLe_total a b

instance : IsTrans String StrLeP where
  trans _ _ _ h1 h2 := strLe_trans h1 h2

def hospitals (df : List Row) : List String :=
  List.insertionSort StrLeP ((df.map (·.hospital)).dedup)

/-- The `(hospital, time)` key of a feature row, for the final sort. -/
def keyRow (a : FeatRow) : Row := ⟨a.hospital, a.time, a.admissions⟩

/-- The final `sort_values(['hospital', time_col])` order (line 197). -/
def FeatLe (a b : FeatRow) : Prop := RowLe (keyRow a) (keyRow b)

instance : DecidableRel FeatLe := fun a b =>
  inferInstanceAs (Decidable (RowLe (keyRow a) (keyRow b)))

instance : IsTotal FeatRow FeatLe where
  total a b := IsTotal.total (r := RowLe) (keyRow a) (keyRow b)

instance : IsTrans FeatRow FeatLe where
  trans _ _ _ h1 h2 := IsTrans.trans (r := RowLe) _ _ _ h1 h2

/-- `aggregate_data` (lines 149–201): per hospital (groups enumerated in
ascending name order) sort by time and add the lag/rolling features, then
concatenate and sort the result by `(hospital, time_col)`. -/
def aggregate_data (df : List Row) : List FeatRow :=
  List.insertionSort FeatLe
    (((hospitals df).map fun h => add_lags (df.filter fun r => r.hospital = h)).flatten)

/-- The time-ordered series of one hospital's rows. -/
def hospSeries (df : List Row) (h : String) : List Row :=
  sortByTime (df.filter fun r => r.hospital = h)

theorem addLagsAux_mem (vals : List (Option ℚ)) :
    ∀ (n : Nat) (l : List Row) (r : FeatRow), r ∈ addLagsAux vals n l →
      ∃ j, ∃ hj : j < l.length, r = featRow vals (n + j) (l.get ⟨j, hj⟩)
  | _, [], r, hr => absurd hr (List.not_mem_nil r)
  | n, x :: xs, r, hr => by
    rcases List.mem_cons.mp hr with h | h
    · exact ⟨0, Nat.succ_pos _, by simpa using h⟩
    · rcases addLagsAux_mem vals (n + 1) xs r h with ⟨j, hj, heq⟩
      refine ⟨j + 1, Nat.succ_lt_succ hj, ?_⟩
      have harith : n + 1 + j = n + (j + 1) := by omega
      rw [heq, harith]
      rfl

theorem hospSeries_hospital (df : List Row) (h : String) :
    ∀ x ∈ hospSeries df h, x.hospital = h := by
  intro x hx
  have hx' : x ∈ df.filter fun r => r.hospital = h :=
    (List.mem_insertionSort TimeLe).mp hx
  have := (List.mem_filter.mp hx').2
  exact of_decide_eq_true this

/-- Every row of `aggregate_data df` is the feature row built at some
position `i` of its own hospital's time-ordered series. -/
theorem aggregate_data_mem_decomp (df : List Row) (r : FeatRow)
    (hr : r ∈ aggregate_data df) :
    ∃ i, ∃ hi : i < (hospSeries df r.hospital).length,
      r = featRow ((hospSeries df r.hospital).map (·.admissions)) i
        ((hospSeries df r.hospital).get ⟨i, hi⟩) := by
  have h1 : r ∈ ((hospitals df).map fun h =>
      add_lags (df.filter fun x => x.hospital = h)).flatten :=
    (List.mem_insertionSort FeatLe).mp hr
  rcases List.mem_flatten.mp h1 with ⟨l, hl, hrl⟩
  rcases List.mem_map.mp hl with ⟨h, _, rfl⟩
  rcases addLagsAux_mem _ 0 _ r hrl with ⟨j, hj, heq⟩
  have hjb : j < (hospSeries df h).length := hj
  have hhosp : r.hospital = h := by
    rw [heq]
    exact hospSeries_hospital df h _ (List.get_mem _ _ _)
  rw [hhosp]
  refine ⟨j, hjb, ?_⟩
  rw [heq]
  congr 1
  omega

/-- A single hospital with 14 consecutive daily rows valued 1…14. -/
def df14 : List Row :=
  [⟨"H", ⟨1, 1, 1, 0⟩, some 1⟩, ⟨"H", ⟨2, 1, 2, 1⟩, some 2⟩,
   ⟨"H", ⟨3, 1, 3, 2⟩, some 3⟩, ⟨"H", ⟨4, 1, 4, 3⟩, some 4⟩,
   ⟨"H", ⟨5, 1, 5, 4⟩, some 5⟩, ⟨"H", ⟨6, 1, 6, 5⟩, some 6⟩,
   ⟨"H", ⟨7, 1, 7, 6⟩, some 7⟩, ⟨"H", ⟨8, 1, 8, 0⟩, some 8⟩,
   ⟨"H", ⟨9, 1, 9, 1⟩, some 9⟩, ⟨"H", ⟨10, 1, 10, 2⟩, some 10⟩,
   ⟨"H", ⟨11, 1, 11, 3⟩, some 11⟩, ⟨"H", ⟨12, 1, 12, 4⟩, some 12⟩,
   ⟨"H", ⟨13, 1, 13, 5⟩, some 13⟩, ⟨"H", ⟨14, 1, 14, 6⟩, some 14⟩]

theorem shift_of_le {k i : Nat} (vals : List (Option ℚ)) (h : k ≤ i) :
    shift k vals i = vals.getD (i - k) none := by
  unfold shift
  rw [if_pos h]

theorem shift_of_lt {k i : Nat} (vals : List (Option ℚ)) (h : i < k) :
    shift k vals i = none := by
  unfold shift
  rw [if_neg (by omega)]

theorem rollingMean_of_lt {k i : Nat} (vals : List (Option ℚ)) (h : i < k) :
    rollingMean k vals i = none := by
  unfold rollingMean
  rw [if_neg (by omega)]

theorem rollingMean_of_all_isSome {k i : Nat} (vals : List (Option ℚ))
    (hk : k ≤ i) (hall : ∀ a ∈ (vals.take i).drop (i - k), a.isSome = true) :
    rollingMean k vals i =
      some (((((vals.take i).drop (i - k))).filterMap id).sum / k) := by
  have hw : (vals.take i).drop (i - k) = (vals.drop (i - k)).take k := by
    rw [List.drop_take]
    congr 1
    omega
  unfold rollingMean
  rw [if_pos hk, ← hw, if_pos (List.all_eq_true.mpr hall)]

/-- C5: every row of `aggregate_data df` carries, for its position `i` in
its hospital's time-ordered series: `lag_7`/`lag_14` equal to the
admissions value exactly 7/14 positions earlier (null when no such position
exists), and `rolling_7`/`rolling_14` equal to the mean of the 7/14 values
immediately preceding the row (excluding it), null until that many
preceding positions exist; on a single-hospital table of 14 daily rows
valued 1…14, the row at position 8 has `lag_7 = 1` and `rolling_7 = 4`. -/
theorem C5_aggregate_data (df : List Row) (r : FeatRow)
    (hr : r ∈ aggregate_data df) :
    (∃ i, ∃ hi : i < (hospSeries df r.hospital).length,
      (r.time = ((hospSeries df r.hospital).get ⟨i, hi⟩).time ∧
        r.admissions = ((hospSeries df r.hospital).get ⟨i, hi⟩).admissions) ∧
      (7 ≤ i → r.lag_7 =
        ((hospSeries df r.hospital).map (·.admissions)).getD (i - 7) none) ∧
      (i < 7 → r.lag_7 = none) ∧
      (14 ≤ i → r.lag_14 =
        ((hospSeries df r.hospital).map (·.admissions)).getD (i - 14) none) ∧
      (i < 14 → r.lag_14 = none) ∧
      (7 ≤ i →
        (∀ a ∈ ((((hospSeries df r.hospital).map (·.admissions)).take i).drop (i - 7)),
          a.isSome = true) →
        r.rolling_7 = some ((((((hospSeries df r.hospital).map
          (·.admissions)).take i).drop (i - 7)).filterMap id).sum / 7)) ∧
      (i < 7 → r.rolling_7 = none) ∧
      (14 ≤ i →
        (∀ a ∈ ((((hospSeries df r.hospital).map (·.admissions)).take i).drop (i - 14)),
          a.isSome = true) →
        r.rolling_14 = some ((((((hospSeries df r.hospital).map
          (·.admissions)).take i).drop (i - 14)).filterMap id).sum / 14)) ∧
      (i < 14 → r.rolling_14 = none)) ∧
    (∃ r8, (aggregate_data df14)[7]? = some r8 ∧
      r8.admissions = some 8 ∧ r8.lag_7 = some 1 ∧ r8.rolling_7 = some 4) := by
  constructor
  · rcases aggregate_data_mem_decomp df r hr with ⟨i, hi, heq⟩
    have hl7 : r.lag_7 =
        shift 7 ((hospSeries df r.hospital).map (·.admissions)) i :=
      congrArg FeatRow.lag_7 heq
    have hl14 : r.lag_14 =
        shift 14 ((hospSeries df r.hospital).map (·.admissions)) i :=
      congrArg FeatRow.lag_14 heq
    have hr7 : r.rolling_7 =
        rollingMean 7 ((hospSeries df r.hospital).map (·.admissions)) i :=
      congrArg FeatRow.rolling_7 heq
    have hr14 : r.rolling_14 =
        rollingMean 14 ((hospSeries df r.hospital).map (·.admissions)) i :=
      congrArg FeatRow.rolling_14 heq
    refine ⟨i, hi,
      ⟨congrArg FeatRow.time heq, congrArg FeatRow.admissions heq⟩,
      ?_, ?_, ?_, ?_, ?_, ?_, ?_, ?_⟩
    · intro h7
      rw [hl7]
      exact shift_of_le _ h7
    · intro h7
      rw [hl7]
      exact shift_of_lt _ h7
    · intro h14
      rw [hl14]
      exact shift_of_le _ h14
    · intro h14
      rw [hl14]
      exact shift_of_lt _ h14
    · intro h7 hall
      rw [hr7, rollingMean_of_all_isSome _ h7 hall]
      norm_num
    · intro h7
      rw [hr7]
      exact rollingMean_of_lt _ h7
    · intro h14 hall
      rw [hr14, rollingMean_of_all_isSome _ h14 hall]
      norm_num
    · intro h14
      rw [hr14]
      exact rollingMean_of_lt _ h14
  · have hv : (hospSeries df14 "H").map (·.admissions) =
        [some 1, some 2, some 3, some 4, some 5, some 6, some 7, some 8,
         some 9, some 10, some 11, some 12, some 13, some 14] := by decide
    refine ⟨featRow ((hospSeries df14 "H").map (·.admissions)) 7
      ⟨"H", ⟨8, 1, 8, 0⟩, some 8⟩, by rfl, rfl, ?_, ?_⟩
    · show shift 7 ((hospSeries df14 "H").map (·.admissions)) 7 = some 1
      rw [hv]
      rfl
    · show rollingMean 7 ((hospSeries df14 "H").map (·.admissions)) 7 = some 4
      rw [hv, rollingMean_of_all_isSome _ (le_refl 7) (by decide)]
      have hfm : ((([some 1, some 2, some 3, some 4, some 5, some 6, some 7,
          some 8, some 9, some 10, some 11, some 12, some 13, some 14] :
            List (Option ℚ)).take 7).drop (7 - 7)).filterMap id =
          ([1, 2, 3, 4, 5, 6, 7] : List ℚ) := by decide
      rw [hfm]
      norm_num [List.sum_cons, List.sum_nil]

/-- A one-row table used to instantiate the feature-extender theorems. -/
def dfW : List Row := [⟨"H", tsA, some 1⟩]

/-- The feature row `aggregate_data` produces from `dfW`'s single row:
day-of-week 0, not a weekend, season 4 (Jan 1), no lag/rolling history. -/
def fwC5 : FeatRow := ⟨"H", tsA, some 1, 0, 0, 4, none, none, none, none⟩

theorem C5_aggregate_data_witness :
    fwC5 ∈ aggregate_data dfW ∧
    (∃ i, ∃ hi : i < (hospSeries dfW fwC5.hospital).length,
      (fwC5.time = ((hospSeries dfW fwC5.hospital).get ⟨i, hi⟩).time ∧
        fwC5.admissions = ((hospSeries dfW fwC5.hospital).get ⟨i, hi⟩).admissions) ∧
      (7 ≤ i → fwC5.lag_7 =
        ((hospSeries dfW fwC5.hospital).map (·.admissions)).getD (i - 7) none) ∧
      (i < 7 → fwC5.lag_7 = none) ∧
      (14 ≤ i → fwC5.lag_14 =
        ((hospSeries dfW fwC5.hospital).map (·.admissions)).getD (i - 14) none) ∧
      (i < 14 → fwC5.lag_14 = none) ∧
      (7 ≤ i →
        (∀ a ∈ ((((hospSeries dfW fwC5.hospital).map (·.admissions)).take i).drop (i - 7)),
          a.isSome = true) →
        fwC5.rolling_7 = some ((((((hospSeries dfW fwC5.hospital).map
          (·.admissions)).take i).drop (i - 7)).filterMap id).sum / 7)) ∧
      (i < 7 → fwC5.rolling_7 = none) ∧
      (14 ≤ i →
        (∀ a ∈ ((((hospSeries dfW fwC5.hospital).map (·.admissions)).take i).drop (i - 14)),
          a.isSome = true) →
        fwC5.rolling_14 = some ((((((hospSeries dfW fwC5.hospital).map
          (·.admissions)).take i).drop (i - 14)).filterMap id).sum / 14)) ∧
      (i < 14 → fwC5.rolling_14 = none)) :=
  ⟨by decide, (C5_aggregate_data dfW fwC5 (by decide)).1⟩

/-- The date 2024-03-21 (day 81 of the year, a Thursday). -/
def dMar21 : Timestamp := ⟨81, 3, 21, 3⟩

/-- The date 2024-03-20. -/
def dMar20 : Timestamp := ⟨80, 3, 20, 2⟩

/-- The date 2024-12-21. -/
def dDec21 : Timestamp := ⟨356, 12, 21, 5⟩

/-- The date 2024-12-20. -/
def dDec20 : Timestamp := ⟨355, 12, 20, 4⟩

/-- C6: the season of every `aggregate_data` output row is computed by
`get_season` from the row's timestamp, and `get_season` maps the key
`month*100 + day` to 1 on 321…620, 2 on 621…922, 3 on 923…1220 and 4
otherwise; in particular Mar 21 ↦ 1, Mar 20 ↦ 4, Dec 21 ↦ 4, Dec 20 ↦ 3. -/
theorem C6_season (df : List Row) (r : FeatRow) (hr : r ∈ aggregate_data df)
    (t : Timestamp) :
    r.season = get_season r.time ∧
    (321 ≤ t.month * 100 + t.day ∧ t.month * 100 + t.day ≤ 620 →
      get_season t = 1) ∧
    (621 ≤ t.month * 100 + t.day ∧ t.month * 100 + t.day ≤ 922 →
      get_season t = 2) ∧
    (923 ≤ t.month * 100 + t.day ∧ t.month * 100 + t.day ≤ 1220 →
      get_season t = 3) ∧
    (¬(321 ≤ t.month * 100 + t.day ∧ t.month * 100 + t.day ≤ 620) ∧
      ¬(621 ≤ t.month * 100 + t.day ∧ t.month * 100 + t.day ≤ 922) ∧
      ¬(923 ≤ t.month * 100 + t.day ∧ t.month * 100 + t.day ≤ 1220) →
      get_season t = 4) ∧
    get_season dMar21 = 1 ∧ get_season dMar20 = 4 ∧
    get_season dDec21 = 4 ∧ get_season dDec20 = 3 := by
  refine ⟨?_, ?_, ?_, ?_, ?_, by decide, by decide, by decide, by decide⟩
  · rcases aggregate_data_mem_decomp df r hr with ⟨i, hi, heq⟩
    have hs : r.season =
        get_season ((hospSeries df r.hospital).get ⟨i, hi⟩).time :=
      congrArg FeatRow.season heq
    have ht : r.time = ((hospSeries df r.hospital).get ⟨i, hi⟩).time :=
      congrArg FeatRow.time heq
    rw [hs, ht]
  · intro h
    simp only [get_season]
    rw [if_pos h]
  · intro h
    obtain ⟨ha, hb⟩ := h
    simp only [get_season]
    rw [if_neg (by omega), if_pos ⟨ha, hb⟩]
  · intro h
    obtain ⟨ha, hb⟩ := h
    simp only [get_season]
    rw [if_neg (by omega), if_neg (by omega), if_pos ⟨ha, hb⟩]
  · intro h
    obtain ⟨h1, h2, h3⟩ := h
    simp only [get_season]
    rw [if_neg h1, if_neg h2, if_neg h3]

theorem C6_season_witness :
    fwC5 ∈ aggregate_data dfW ∧ fwC5.season = get_season fwC5.time :=
  ⟨by decide, (C6_season dfW fwC5 (by decide) dMar21).1⟩

/-! ### Schema normalizer: `cast_columns_types`
(`data_preprocessing_utils.py`, lines 13–46)

A raw cell is a string, a number, a parsed timestamp (abstracted as a count
of seconds since an epoch), or the null marker (NaN/NaT). Library calls are
embedded as total functions: `pd.to_datetime(..., errors='coerce')` returns
`Option`-valued results, `astype(str)` is a stringification whose canonical
timestamp form can be re-parsed by the general parser (as pandas re-parses
its own ISO strings), and exotic input formats the general parser would
accept are conservatively modelled as unparseable. -/

/-- One raw table cell. -/
inductive Cell where
  | str (s : String)
  | num (q : ℚ)
  | dt (t : Nat)
  | null
deriving DecidableEq, Repr

/-- Whitespace as recognized by `str.strip()`. -/
def isWS (c : Char) : Bool := c = ' ' || c = '\t' || c = '\n' || c = '\r'

/-- `str.strip()` on the character list. -/
def stripChars (l : List Char) : List Char :=
  ((l.dropWhile isWS).reverse.dropWhile isWS).reverse

/-- `str.strip()`. -/
def strip (s : String) : String := String.mk (stripChars s.toList)

/-- The decimal digit characters of a natural number. -/
def natChars (n : Nat) : List Char :=
  if _h : n < 10 then [Nat.digitChar n]
  else natChars (n / 10) ++ [Nat.digitChar (n % 10)]
decreasing_by exact Nat.div_lt_self (by omega) (by omega)

/-- Parse a digit string (accumulator form); `none` at the first
non-digit. -/
def charsToNatAux (acc : Nat) : List Char → Option Nat
  | [] => some acc
  | c :: cs =>
    if c.isDigit then charsToNatAux (acc * 10 + (c.toNat - 48)) cs else none

/-- Parse a nonempty digit string into a number. -/
def charsToNat? (l : List Char) : Option Nat :=
  if l.isEmpty then none else charsToNatAux 0 l

/-- The regex `^\d{8}$` of line 29. -/
def isEightDigits (s : String) : Bool :=
  (s.toList.length == 8) && s.toList.all (·.isDigit)

/-- Line 29: `not date_sample.empty and
(date_sample.str.match(r'^\d{8}$').mean() > 0.8)` — note the STRICT
comparison. The sample is the whole stringified column: after
`astype(str)` there are no nulls left for `dropna` to remove. -/
def selectsYYYYMMDD (strs : List String) : Bool :=
  !strs.isEmpty &&
    decide (((strs.countP isEightDigits : ℚ)) / strs.length > 4 / 5)

/-- Line 30: `pd.to_datetime(s, format='%Y%m%d', errors='coerce')` on one
stripped string: an 8-digit string parses, anything else coerces to NaT.
Calendar validity of the month/day digits is abstracted away; the
timestamp is identified by its digit key. -/
def parse8 (s : String) : Option Nat :=
  if isEightDigits s then charsToNat? s.toList else none

/-- The canonical string of a stored timestamp, as produced by
`astype(str)`: an injective textual form whose head is not a digit and
which contains no whitespace (pandas prints an ISO form; the embedding
keeps a marker plus the digits). -/
def dtString (t : Nat) : String := String.mk ('d' :: 't' :: ':' :: natChars t)

/-- Line 32: `pd.to_datetime(s, errors='coerce')` on one string: the
general parser re-parses canonical timestamp strings and 8-digit dates;
`'NaT'` and everything else coerce to NaT. -/
def parseGeneralDT (s : String) : Option Nat :=
  if ['d', 't', ':'].isPrefixOf s.toList then charsToNat? (s.toList.drop 3)
  else if isEightDigits s then charsToNat? s.toList
  else none

/-- `astype(str)` on one cell (`str(NaT)`/`str(nan)` collapse to the null
marker's text). -/
def cellToString : Cell → String
  | .str s => s
  | .num q => toString q
  | .dt t => dtString t
  | .null => "NaT"

/-- Lines 23–32: strip and stringify the date column, pick the parser by
the 8-digit heuristic, and parse every entry, coercing failures to null. -/
def castDateCol (cells : List Cell) : List Cell :=
  if selectsYYYYMMDD (cells.map fun c => strip (cellToString c)) then
    (cells.map fun c => strip (cellToString c)).map fun s =>
      match parse8 s with | some t => Cell.dt t | none => Cell.null
  else
    (cells.map fun c => strip (cellToString c)).map fun s =>
      match parseGeneralDT s with | some t => Cell.dt t | none => Cell.null

/-- `dt.floor('min')` on a seconds count (line 36). -/
def floorMin (t : Nat) : Nat := 60 * (t / 60)

/-- `pd.to_datetime(c, errors='coerce')` on one cell of the datetime
column: timestamps pass through, strings go to the general parser,
numbers and nulls coerce to NaT. -/
def toDT : Cell → Option Nat
  | .dt t => some t
  | .str s => parseGeneralDT s
  | .num _ => none
  | .null => none

/-- Lines 34–36: parse then truncate to minutes. -/
def castDatetimeCell (c : Cell) : Cell :=
  match toDT c with
  | some t => Cell.dt (floorMin t)
  | none => Cell.null

def castDatetimeCol (cells : List Cell) : List Cell :=
  cells.map castDatetimeCell

/-- Line 39: `pd.to_numeric(errors='coerce')` on one cell: numbers pass
through, numeric strings parse (integer literals in the embedding),
anything else coerces to NaN. -/
def toNumericCell : Cell → Cell
  | .num q => .num q
  | .str s =>
    match charsToNat? s.toList with
    | some n => .num (n : ℚ)
    | none => .null
  | .dt _ => .null
  | .null => .null

/-- Line 42: `astype(str)` on one cell of the hospital column. -/
def toStrCell (c : Cell) : Cell := .str (cellToString c)

/-- A dataframe for the schema normalizer: optional `date` and `datetime`
columns, mandatory `admissions` and `hospital` columns. -/
structure DFrame where
  date : Option (List Cell)
  datetime : Option (List Cell)
  admissions : List Cell
  hospital : List Cell
deriving DecidableEq, Repr

/-- `cast_columns_types` (lines 13–46). -/
def cast_columns_types (df : DFrame) : DFrame :=
  { date := df.date.map castDateCol
    datetime := df.datetime.map castDatetimeCol
    admissions := df.admissions.map toNumericCell
    hospital := df.hospital.map toStrCell }

theorem digitChar_spec :
    ∀ n, n < 10 → (Nat.digitChar n).isDigit = true ∧
      (Nat.digitChar n).toNat - 48 = n ∧ isWS (Nat.digitChar n) = false := by
  decide

theorem natChars_ne_nil (n : Nat) : natChars n ≠ [] := by
  rw [natChars]
  split
  · simp
  · simp

theorem natChars_digits :
    ∀ (n : Nat), ∀ c ∈ natChars n, c.isDigit = true := by
  intro n
  induction n using Nat.strong_induction_on with
  | _ n ih =>
    intro c hc
    rw [natChars] at hc
    split at hc
    · next h =>
      rcases List.mem_singleton.mp hc with rfl
      exact (digitChar_spec n h).1
    · next h =>
      rcases List.mem_append.mp hc with hmem | hmem
      · exact ih (n / 10) (Nat.div_lt_self (by omega) (by omega)) c hmem
      · rcases List.mem_singleton.mp hmem with rfl
        exact (digitChar_spec (n % 10) (Nat.mod_lt _ (by omega))).1

theorem charsToNatAux_append (acc : Nat) (l1 l2 : List Char) :
    charsToNatAux acc (l1 ++ l2)
      = (charsToNatAux acc l1).bind fun a => charsToNatAux a l2 := by
  induction l1 generalizing acc with
  | nil => rfl
  | cons c cs ih =>
    by_cases h : c.isDigit
    · simp only [List.cons_append, charsToNatAux, if_pos h]
      exact ih _
    · simp only [List.cons_append, charsToNatAux, if_neg h, Option.none_bind]

theorem charsToNatAux_natChars :
    ∀ (n : Nat) (acc : Nat),
      charsToNatAux acc (natChars n)
        = some (acc * 10 ^ (natChars n).length + n) := by
  intro n
  induction n using Nat.strong_induction_on with
  | _ n ih =>
    intro acc
    by_cases h : n < 10
    · rw [natChars, dif_pos h]
      simp only [charsToNatAux, if_pos (digitChar_spec n h).1,
        (digitChar_spec n h).2.1, List.length_singleton]
      norm_num
    · rw [natChars, dif_neg h, charsToNatAux_append,
        ih (n / 10) (Nat.div_lt_self (by omega) (by omega)) acc]
      have hd := digitChar_spec (n % 10) (Nat.mod_lt _ (by omega))
      simp only [Option.some_bind, charsToNatAux, if_pos hd.1, hd.2.1,
        List.length_append, List.length_singleton]
      congr 1
      have hpow : 10 ^ ((natChars (n / 10)).length + 1)
          = 10 ^ (natChars (n / 10)).length * 10 := pow_succ 10 _
      rw [hpow]
      have e : ∀ A : Nat, (A + n / 10) * 10 + n % 10 = A * 10 + n := by
        intro A
        omega
      rw [e (acc * 10 ^ (natChars (n / 10)).length), Nat.mul_assoc]

theorem charsToNat_natChars (n : Nat) : charsToNat? (natChars n) = some n := by
  unfold charsToNat?
  rw [if_neg (by simpa using natChars_ne_nil n), charsToNatAux_natChars n 0]
  simp

theorem isDigit_not_isWS (c : Char) (h : c.isDigit = true) : isWS c = false := by
  have h1 : c ≠ ' ' := fun hc => by rw [hc] at h; cases h
  have h2 : c ≠ '\t' := fun hc => by rw [hc] at h; cases h
  have h3 : c ≠ '\n' := fun hc => by rw [hc] at h; cases h
  have h4 : c ≠ '\r' := fun hc => by rw [hc] at h; cases h
  simp [isWS, h1, h2, h3, h4]

theorem dropWhile_eq_self_of_not {l : List Char}
    (h : ∀ c ∈ l, isWS c = false) : l.dropWhile isWS = l := by
  cases l with
  | nil => rfl
  | cons c cs =>
    rw [List.dropWhile_cons, if_neg]
    rw [h c (List.mem_cons_self _ _)]
    simp

theorem stripChars_eq_self {l : List Char}
    (h : ∀ c ∈ l, isWS c = false) : stripChars l = l := by
  unfold stripChars
  rw [dropWhile_eq_self_of_not h,
    dropWhile_eq_self_of_not fun c hc => h c (List.mem_reverse.mp hc),
    List.reverse_reverse]

theorem strip_eq_self {s : String}
    (h : ∀ c ∈ s.toList, isWS c = false) : strip s = s :=
  congrArg String.mk (stripChars_eq_self h)

theorem strip_dtString (t : Nat) : strip (dtString t) = dtString t := by
  apply strip_eq_self
  intro c hc
  have hc' : c ∈ 'd' :: 't' :: ':' :: natChars t := hc
  simp only [List.mem_cons] at hc'
  rcases hc' with rfl | rfl | rfl | hmem
  · decide
  · decide
  · decide
  · exact isDigit_not_isWS c (natChars_digits t c hmem)

theorem parseGeneralDT_dtString (t : Nat) :
    parseGeneralDT (dtString t) = some t := by
  unfold parseGeneralDT
  have hpre : ['d', 't', ':'].isPrefixOf (dtString t).toList = true := by
    show ['d', 't', ':'].isPrefixOf ('d' :: 't' :: ':' :: natChars t) = true
    simp [List.isPrefixOf]
  rw [if_pos hpre]
  show charsToNat? (natChars t) = some t
  exact charsToNat_natChars t

theorem isEightDigits_dtString (t : Nat) :
    isEightDigits (dtString t) = false := by
  unfold isEightDigits
  have : (dtString t).toList.all (·.isDigit) = false := by
    show (('d' :: 't' :: ':' :: natChars t).all (·.isDigit)) = false
    simp [List.all_cons]
  rw [this, Bool.and_false]

theorem castDateCol_shape (cells : List Cell) :
    ∀ c ∈ castDateCol cells, (∃ t, c = Cell.dt t) ∨ c = Cell.null := by
  intro c hc
  unfold castDateCol at hc
  split at hc
  · rcases List.mem_map.mp hc with ⟨s, _, rfl⟩
    cases hps : parse8 s with
    | some t => exact Or.inl ⟨t, by simp [hps]⟩
    | none => exact Or.inr (by simp [hps])
  · rcases List.mem_map.mp hc with ⟨s, _, rfl⟩
    cases hps : parseGeneralDT s with
    | some t => exact Or.inl ⟨t, by simp [hps]⟩
    | none => exact Or.inr (by simp [hps])

theorem selectsYYYYMMDD_eq_false_of_countP_zero (strs : List String)
    (h : strs.countP isEightDigits = 0) : selectsYYYYMMDD strs = false := by
  unfold selectsYYYYMMDD
  rw [h]
  have hle : ¬((((0 : Nat) : ℚ)) / (strs.length : ℚ) > 4 / 5) := by
    push_cast
    rw [zero_div]
    norm_num
  rw [decide_eq_false hle, Bool.and_false]

theorem selectsYYYYMMDD_out_false (cells : List Cell) :
    selectsYYYYMMDD ((castDateCol cells).map fun c => strip (cellToString c))
      = false := by
  apply selectsYYYYMMDD_eq_false_of_countP_zero
  rw [List.countP_eq_zero]
  intro s hs
  rcases List.mem_map.mp hs with ⟨c, hcmem, rfl⟩
  rcases castDateCol_shape cells c hcmem with ⟨t, rfl⟩ | rfl
  · show ¬isEightDigits (strip (cellToString (Cell.dt t))) = true
    have he : cellToString (Cell.dt t) = dtString t := rfl
    rw [he, strip_dtString, isEightDigits_dtString]
    simp
  · decide

theorem castDateCol_cell_stable (c : Cell)
    (hsh : (∃ t, c = Cell.dt t) ∨ c = Cell.null) :
    (match parseGeneralDT (strip (cellToString c)) with
      | some t => Cell.dt t
      | none => Cell.null) = c := by
  rcases hsh with ⟨t, rfl⟩ | rfl
  · have he : cellToString (Cell.dt t) = dtString t := rfl
    rw [he, strip_dtString, parseGeneralDT_dtString]
  · rfl

theorem castDateCol_idem (cells : List Cell) :
    castDateCol (castDateCol cells) = castDateCol cells := by
  have unf : ∀ Y : List Cell, castDateCol Y =
      if selectsYYYYMMDD (Y.map fun c => strip (cellToString c)) then
        (Y.map fun c => strip (cellToString c)).map fun s =>
          match parse8 s with | some t => Cell.dt t | none => Cell.null
      else
        (Y.map fun c => strip (cellToString c)).map fun s =>
          match parseGeneralDT s with | some t => Cell.dt t | none => Cell.null :=
    fun _ => rfl
  rw [unf (castDateCol cells),
    if_neg (by rw [selectsYYYYMMDD_out_false cells]; simp), List.map_map]
  have h2 : ∀ c ∈ castDateCol cells,
      ((fun s => match parseGeneralDT s with
        | some t => Cell.dt t | none => Cell.null)
          ∘ fun c => strip (cellToString c)) c = c :=
    fun c hc => castDateCol_cell_stable c (castDateCol_shape cells c hc)
  rw [List.map_congr_left h2, List.map_id']

theorem castDatetimeCell_idem (c : Cell) :
    castDatetimeCell (castDatetimeCell c) = castDatetimeCell c := by
  have hfloor : ∀ t, floorMin (floorMin t) = floorMin t := by
    intro t
    unfold floorMin
    rw [Nat.mul_div_cancel_left _ (by norm_num)]
  cases c with
  | dt t =>
    show castDatetimeCell (Cell.dt (floorMin t)) = Cell.dt (floorMin t)
    show Cell.dt (floorMin (floorMin t)) = Cell.dt (floorMin t)
    rw [hfloor]
  | str s =>
    cases hp : parseGeneralDT s with
    | some t =>
      have h1 : castDatetimeCell (Cell.str s) = Cell.dt (floorMin t) := by
        show (match parseGeneralDT s with
          | some t => Cell.dt (floorMin t)
          | none => Cell.null) = Cell.dt (floorMin t)
        rw [hp]
      rw [h1]
      show Cell.dt (floorMin (floorMin t)) = Cell.dt (floorMin t)
      rw [hfloor]
    | none =>
      have h1 : castDatetimeCell (Cell.str s) = Cell.null := by
        show (match parseGeneralDT s with
          | some t => Cell.dt (floorMin t)
          | none => Cell.null) = Cell.null
        rw [hp]
      rw [h1]
      rfl
  | num q => rfl
  | null => rfl

theorem castDatetimeCol_idem (cells : List Cell) :
    castDatetimeCol (castDatetimeCol cells) = castDatetimeCol cells := by
  unfold castDatetimeCol
  rw [List.map_map]
  exact List.map_congr_left fun c _ => castDatetimeCell_idem c

theorem toNumericCell_idem (c : Cell) :
    toNumericCell (toNumericCell c) = toNumericCell c := by
  cases c with
  | num q => rfl
  | str s =>
    cases hp : charsToNat? s.toList with
    | some n =>
      have h1 : toNumericCell (Cell.str s) = Cell.num (n : ℚ) := by
        show (match charsToNat? s.toList with
          | some n => Cell.num (n : ℚ)
          | none => Cell.null) = Cell.num (n : ℚ)
        rw [hp]
      rw [h1]
      rfl
    | none =>
      have h1 : toNumericCell (Cell.str s) = Cell.null := by
        show (match charsToNat? s.toList with
          | some n => Cell.num (n : ℚ)
          | none => Cell.null) = Cell.null
        rw [hp]
      rw [h1]
      rfl
  | dt t => rfl
  | null => rfl

theorem toStrCell_idem (c : Cell) :
    toStrCell (toStrCell c) = toStrCell c := rfl

/-- A date column of five strings of which exactly four (80%) match the
8-digit pattern. -/
def datesC7 : List String :=
  ["20240101", "20240102", "20240103", "20240104", "notadate"]

/-- C7 counterexample: in `datesC7` at least 80% of the strings match the
8-digit pattern (exactly 4 of 5), yet the `YYYYMMDD` parser is NOT
selected — the code's test is the strict `mean() > 0.8`, not `≥ 80%`. -/
theorem C7_counterexample :
    (datesC7.countP isEightDigits : ℚ) / datesC7.length ≥ 4 / 5 ∧
    selectsYYYYMMDD datesC7 = false := by
  have hc : datesC7.countP isEightDigits = 4 := by decide
  have hl : datesC7.length = 5 := by decide
  constructor
  · rw [hc, hl]
    norm_num
  · unfold selectsYYYYMMDD
    rw [hc, hl]
    have hle : ¬((((4 : Nat) : ℚ)) / (((5 : Nat) : ℚ)) > 4 / 5) := by
      push_cast
      norm_num
    rw [decide_eq_false hle, Bool.and_false]

/-- C7, amended: the `YYYYMMDD` parser is selected iff the stringified
sample is nonempty and STRICTLY more than 80% of its entries match the
8-digit pattern (the code tests `mean() > 0.8`); in either branch the cast
is total — the column keeps its length and every output cell is a parsed
timestamp or the null marker (an unparseable string silently coerces to
null; no exception is raised). -/
theorem C7_amended_heuristic (strs : List String) (cells : List Cell)
    (c : Cell) (hc : c ∈ castDateCol cells) :
    (selectsYYYYMMDD strs = true ↔
      strs ≠ [] ∧ (strs.countP isEightDigits : ℚ) / strs.length > 4 / 5) ∧
    (castDateCol cells).length = cells.length ∧
    ((∃ t, c = Cell.dt t) ∨ c = Cell.null) := by
  refine ⟨?_, ?_, castDateCol_shape cells c hc⟩
  · simp [selectsYYYYMMDD, List.isEmpty_iff]
  · unfold castDateCol
    split <;> simp

theorem C7_amended_witness :
    Cell.null ∈ castDateCol [Cell.null] ∧
    ((selectsYYYYMMDD datesC7 = true ↔
      datesC7 ≠ [] ∧
        (datesC7.countP isEightDigits : ℚ) / datesC7.length > 4 / 5) ∧
    (castDateCol [Cell.null]).length = ([Cell.null] : List Cell).length ∧
    ((∃ t, Cell.null = Cell.dt t) ∨ Cell.null = Cell.null)) := by
  have hsel : selectsYYYYMMDD ([Cell.null].map fun c =>
      strip (cellToString c)) = false := by
    apply selectsYYYYMMDD_eq_false_of_countP_zero
    decide
  have hval : castDateCol [Cell.null] = [Cell.null] := by
    unfold castDateCol
    rw [if_neg (by rw [hsel]; simp)]
    rfl
  have hc : Cell.null ∈ castDateCol [Cell.null] := by
    rw [hval]
    exact List.mem_singleton.mpr rfl
  exact ⟨hc, C7_amended_heuristic datesC7 [Cell.null] Cell.null hc⟩

/-- C8: the schema normalizer is idempotent — applying
`cast_columns_types` to its own output returns that output unchanged. -/
theorem C8_cast_columns_types_idempotent (df : DFrame) :
    cast_columns_types (cast_columns_types df) = cast_columns_types df := by
  cases df with
  | mk date datetime admissions hospital =>
    unfold cast_columns_types
    congr 1
    · cases date with
      | none => rfl
      | some cells =>
        show some (castDateCol (castDateCol cells)) = some (castDateCol cells)
        rw [castDateCol_idem]
    · cases datetime with
      | none => rfl
      | some cells =>
        show some (castDatetimeCol (castDatetimeCol cells))
          = some (castDatetimeCol cells)
        rw [castDatetimeCol_idem]
    · show (admissions.map toNumericCell).map toNumericCell
        = admissions.map toNumericCell
      rw [List.map_map]
      exact List.map_congr_left fun c _ => toNumericCell_idem c
    · show (hospital.map toStrCell).map toStrCell = hospital.map toStrCell
      rw [List.map_map]
      exact List.map_congr_left fun c _ => toStrCell_idem c

/-! ### Raw-data readers
(`data_cleaning_utils.py`, lines 5–65) -/

/-- Substring test on character lists, used to check whether an error
message names the offending value. -/
def infixB (sub : List Char) : List Char → Bool
  | [] => sub.isEmpty
  | c :: cs => sub.isPrefixOf (c :: cs) || infixB sub cs

/-- Substring test on strings. -/
def containsStr (sub s : String) : Bool := infixB sub.toList s.toList

/-- `read_large_file` (lines 44–65), modelled at the dispatch level: the
chunked `pd.read_csv` + `concat` reading is I/O and is abstracted to a
trivial payload; the branch structure and the raised error are the
code's — note the error message is the constant of line 65. -/
def read_large_file (format : String) : Except String Unit :=
  if format = "csv" then Except.ok ()
  else if format = "txt" then Except.ok ()
  else Except.error "Formato no soportado"

/-- `read_raw_data` (lines 5–42): delegate to `read_large_file` when
`large_file` is set, otherwise dispatch on the format; the
unsupported-format error of line 40 interpolates the format value. -/
def read_raw_data (format : String) (large_file : Bool) :
    Except String Unit :=
  if large_file then read_large_file format
  else if format = "csv" then Except.ok ()
  else if format = "txt" then Except.ok ()
  else if format = "xls" ∨ format = "xlsx" then Except.ok ()
  else Except.error ("Formato no soportado: " ++ format)

theorem isPrefixOf_self : ∀ l : List Char, l.isPrefixOf l = true
  | [] => rfl
  | c :: cs => by simp [List.isPrefixOf, isPrefixOf_self cs]

theorem infixB_append_self (sub : List Char) :
    ∀ pre : List Char, infixB sub (pre ++ sub) = true
  | [] => by
    cases sub with
    | nil => rfl
    | cons c cs => simp [infixB, isPrefixOf_self]
  | c :: pre => by
    simp [infixB, infixB_append_self sub pre]

theorem toList_append (a b : String) :
    (a ++ b).toList = a.toList ++ b.toList := by
  obtain ⟨la⟩ := a
  obtain ⟨lb⟩ := b
  rfl

/-- C9 counterexample: on the large-file path an unsupported format fails
with the constant message `Formato no soportado`, which does NOT name the
offending value (here the format string `parquet`). -/
theorem C9_counterexample :
    read_large_file "parquet" = Except.error "Formato no soportado" ∧
    containsStr "parquet" "Formato no soportado" = false :=
  ⟨rfl, by decide⟩

/-- C9, amended: an unsupported format string is a fatal explicit error on
both paths; on the normal path (supported: csv, txt, xls, xlsx) the error
message names the unsupported value, while on the large-file path
(supported: csv, txt) the message is the constant `Formato no soportado`,
which does not include the value. -/
theorem C9_amended_unsupported_format (format : String)
    (h1 : format ∉ (["csv", "txt", "xls", "xlsx"] : List String))
    (h2 : format ∉ (["csv", "txt"] : List String)) :
    read_raw_data format false
        = Except.error ("Formato no soportado: " ++ format) ∧
    containsStr format ("Formato no soportado: " ++ format) = true ∧
    read_large_file format = Except.error "Formato no soportado" ∧
    read_raw_data format true = Except.error "Formato no soportado" := by
  simp only [List.mem_cons, List.not_mem_nil, not_or, or_false] at h1 h2
  obtain ⟨hcsv, htxt, hxls, hxlsx⟩ := h1
  obtain ⟨hcsv2, htxt2⟩ := h2
  have hlarge : read_large_file format = Except.error "Formato no soportado" := by
    unfold read_large_file
    rw [if_neg hcsv2, if_neg htxt2]
  refine ⟨?_, ?_, hlarge, ?_⟩
  · unfold read_raw_data
    rw [if_neg (by simp), if_neg hcsv, if_neg htxt,
      if_neg (not_or.mpr ⟨hxls, hxlsx⟩)]
  · unfold containsStr
    rw [toList_append]
    exact infixB_append_self format.toList _
  · unfold read_raw_data
    rw [if_pos rfl]
    exact hlarge

theorem C9_amended_witness :
    ("parquet" : String) ∉ (["csv", "txt", "xls", "xlsx"] : List String) ∧
    ("parquet" : String) ∉ (["csv", "txt"] : List String) ∧
    (read_raw_data "parquet" false
        = Except.error ("Formato no soportado: " ++ "parquet") ∧
      containsStr "parquet" ("Formato no soportado: " ++ "parquet") = true ∧
      read_large_file "parquet" = Except.error "Formato no soportado" ∧
      read_raw_data "parquet" true = Except.error "Formato no soportado") :=
  ⟨by decide, by decide,
    C9_amended_unsupported_format "parquet" (by decide) (by decide)⟩

end EmergencyAdmissions
